import Mathlib

/-!
Shallow embedding of the thumbnail-handler core (`CKisekiThumb::GetThumbnail`
in `src/thumb_win32.cc`) and proofs about it.

The core pipeline of the source is:
1. a payload locator: `std::search` the document buffer for the first
   occurrence of the closing tag `</roblox>`, advance past the tag and one
   separator byte, fail if nothing follows, otherwise take the rest of the
   buffer as the payload;
2. a decoder: hand the payload to the external WIC codec
   (`CreateDecoderFromStream` / `GetFrame` / `GetSize`), compute
   `stride = (width * 3 + 3) & ~3` in 32-bit `UINT` arithmetic, resize a
   buffer to `height * stride` bytes (again `UINT` arithmetic) and let the
   codec fill it via `CopyPixels`.

Bytes are modelled as `Nat`, buffers as `List Nat`, 32-bit `UINT` arithmetic
as `Nat` arithmetic reduced `% 2 ^ 32` at the points where the C++ code
truncates.  The external WIC codec is not part of this repository; it is
modelled abstractly as a function from payload bytes to an optional frame
(dimensions plus a pixel-copy oracle), with its documented buffer-size
validation captured by the predicate `WicFrame.Wf`.
-/

namespace KisekiThumb

/-- The closing-tag marker the locator searches for: the bytes of the
string assigned to `endTag` in `CKisekiThumb::GetThumbnail`, namely the
ASCII codes of the nine characters of the closing roblox tag. -/
def markerBytes : List Nat := [60, 47, 114, 111, 98, 108, 111, 120, 62]

/-- Typed failures of the payload locator (spec section 7).  Both correspond
to `return E_FAIL` sites in the source: line 105 (tag not found) and
line 112 (no data after the tag). -/
inductive LocateError where
  | markerNotFound
  | noPayload
deriving DecidableEq

/-- Typed failures of the decoder stage (spec section 7 taxonomy). -/
inductive DecodeError where
  | emptyPayload
  | unsupportedOrCorruptFormat
  | invalidDimensions
  | decodeFailed
deriving DecidableEq

/-- The decoded thumbnail: the `Thumbnail` struct of the source
(`data`, `width`, `height`). -/
structure DecodedImage where
  data : List Nat
  width : Nat
  height : Nat
deriving DecidableEq

/-- Offset of the first occurrence of `markerBytes` in the document, the
model of `std::search(buffer.begin(), buffer.end(), endTag.begin(),
endTag.end())` (which yields the first match, or `end` when there is
none). -/
def findMarker : List Nat → Option Nat
  | [] => none
  | a :: rest =>
    if markerBytes.isPrefixOf (a :: rest) then some 0
    else (findMarker rest).map (fun p => p + 1)

/-- The payload locator (source lines 100-116): find the first occurrence of
the closing tag, advance the iterator by `endTag.length() + 1` (tag plus one
separator byte), fail when `it >= buffer.end()`, otherwise the payload is
the rest of the buffer. -/
def locate (doc : List Nat) : Except LocateError (List Nat) :=
  match findMarker doc with
  | none => Except.error LocateError.markerNotFound
  | some m =>
    if doc.length ≤ m + markerBytes.length + 1 then
      Except.error LocateError.noPayload
    else
      Except.ok (doc.drop (m + markerBytes.length + 1))

/-- `2 ^ 32`, the modulus of the source's `UINT` arithmetic. -/
def UINT_MOD : Nat := 4294967296

/-- Source line 172, `UINT stride = (width * 3 + 3) & ~3;`: the
multiplication and addition truncate to 32 bits, and `~3` is the 32-bit
mask `0xFFFFFFFC = 4294967292`. -/
def strideOf (w : Nat) : Nat := ((w * 3 + 3) % UINT_MOD) &&& 4294967292

/-- Source line 178, `thumb.data.resize(height * stride);`: the product is
computed in `UINT` and therefore truncates to 32 bits. -/
def bufLenOf (w h : Nat) : Nat := (h * strideOf w) % UINT_MOD

/-- Abstract model of one decoded frame produced by the external WIC codec:
the dimensions reported by `IWICBitmapFrameDecode::GetSize` and a
pixel-copy oracle modelling `CopyPixels(nullptr, stride, bufSize, buf)`,
which either fills the whole destination buffer or fails. -/
structure WicFrame where
  width : Nat
  height : Nat
  copyPixels : Nat → Nat → Option (List Nat)

/-- The number of bytes `CopyPixels` needs for an `h`-row image at 24 bits
per pixel with the given stride: `(h - 1)` full strides plus one final row
of `w * 3` bytes. -/
def requiredBytes (w h stride : Nat) : Nat :=
  if h = 0 then 0 else (h - 1) * stride + w * 3

/-- Modelled from the spec: the contract of the external codec, which is not
part of this repository.  Dimensions are 32-bit `UINT`s, and the codec's
`CopyPixels` succeeds only when the caller-supplied stride covers a full
`w * 3`-byte row and the buffer covers all rows (its documented
insufficient-buffer validation); on success it returns the filled buffer,
whose length is exactly the requested buffer size. -/
def WicFrame.Wf (fr : WicFrame) : Prop :=
  fr.width < UINT_MOD ∧ fr.height < UINT_MOD ∧
    ∀ stride bufSize out, fr.copyPixels stride bufSize = some out →
      fr.width * 3 ≤ stride ∧
      requiredBytes fr.width fr.height stride ≤ bufSize ∧
      out.length = bufSize

/-- The decoder stage of `GetThumbnail` (source lines 118-189),
parameterised by the external codec (`CreateDecoderFromStream`, `GetFrame`
and `GetSize` collapsed into one function from payload bytes to an optional
frame).  A payload the codec cannot parse is a typed failure; otherwise the
source computes the stride and buffer length in `UINT` arithmetic and asks
the codec to fill the buffer; a failing `CopyPixels` is a typed failure. -/
def decode (codec : List Nat → Option WicFrame) (payload : List Nat) :
    Except DecodeError DecodedImage :=
  match codec payload with
  | none => Except.error DecodeError.unsupportedOrCorruptFormat
  | some fr =>
    match fr.copyPixels (strideOf fr.width) (bufLenOf fr.width fr.height) with
    | none => Except.error DecodeError.decodeFailed
    | some out => Except.ok (DecodedImage.mk out fr.width fr.height)

/-- A failure of either stage of the pipeline. -/
inductive ThumbError where
  | locateStage (e : LocateError)
  | decodeStage (e : DecodeError)
deriving DecidableEq

/-- The whole core of `GetThumbnail`: locate the payload, then decode it,
short-circuiting on the first failure. -/
def pipeline (codec : List Nat → Option WicFrame) (doc : List Nat) :
    Except ThumbError DecodedImage :=
  match locate doc with
  | Except.error e => Except.error (ThumbError.locateStage e)
  | Except.ok payload =>
    match decode codec payload with
    | Except.error e => Except.error (ThumbError.decodeStage e)
    | Except.ok img => Except.ok img

/-- `GetThumbnail(UINT cx, ...)` itself: the requested size `cx` is a
parameter of the source function but its body never reads it. -/
def getThumbnail (codec : List Nat → Option WicFrame) (cx : Nat)
    (doc : List Nat) : Except ThumbError DecodedImage :=
  pipeline codec doc

/-- Pixel-copy behaviour of a concrete well-formed 200x100 frame used to
exercise the pipeline: succeeds exactly when stride and buffer size meet
the codec contract, filling the buffer with zero bytes. -/
def c1copy (stride bufSize : Nat) : Option (List Nat) :=
  if 200 * 3 ≤ stride ∧ requiredBytes 200 100 stride ≤ bufSize then
    some (List.replicate bufSize 0)
  else none

/-- A concrete frame declaring 200x100, as a baseline JPEG header would. -/
def c1frame : WicFrame := WicFrame.mk 200 100 c1copy

/-- A codec that decodes any payload to the 200x100 frame. -/
def c1codec : List Nat → Option WicFrame := fun _ => some c1frame

/-- A pathological frame: its reported width makes `width * 3 + 3` overflow
32-bit arithmetic (2863311531 * 3 + 3 = 2 * 2^32 + 4), and its pixel copy
never fails, exposing that the decoder itself performs no dimension
validation. -/
def c2frame : WicFrame :=
  WicFrame.mk 2863311531 1 (fun _ bufSize => some (List.replicate bufSize 0))

/-- A codec producing the pathological frame for any payload. -/
def c2codec : List Nat → Option WicFrame := fun _ => some c2frame

/-- Pixel-copy behaviour of a concrete well-formed 101x2 frame (width 101
covers the `w * 3 % 4 = 3` padding case). -/
def c6copy (stride bufSize : Nat) : Option (List Nat) :=
  if 101 * 3 ≤ stride ∧ requiredBytes 101 2 stride ≤ bufSize then
    some (List.replicate bufSize 7)
  else none

/-- A concrete frame declaring 101x2. -/
def c6frame : WicFrame := WicFrame.mk 101 2 c6copy

/-- A codec that decodes any payload to the 101x2 frame. -/
def c6codec : List Nat → Option WicFrame := fun _ => some c6frame

/-- A concrete 1x1 frame whose pixel copy always fills the buffer with 9s. -/
def c9frame : WicFrame :=
  WicFrame.mk 1 1 (fun _ bufSize => some (List.replicate bufSize 9))

/-- A codec that decodes any payload to the 1x1 frame. -/
def c9codec : List Nat → Option WicFrame := fun _ => some c9frame

/-- One match attempt of the searched-for marker at offset `p`, over an
explicit byte-read oracle `get` and document length `len`: the model reads
a byte only under the guard `p + markerLen ≤ len`, exactly as
`std::search` never dereferences at or past `buffer.end()`. -/
def gmatch (len : Nat) (get : Nat → Nat) (p : Nat) : Bool :=
  decide (p + markerBytes.length ≤ len) &&
    (List.range markerBytes.length).all (fun j => get (p + j) == markerBytes.getD j 0)

/-- The marker search over the read oracle, scanning positions
`p, p + 1, ...` while fuel remains. -/
def findMarkerGAux (len : Nat) (get : Nat → Nat) : Nat → Nat → Option Nat
  | 0, _ => none
  | fuel + 1, p =>
    if gmatch len get p then some p else findMarkerGAux len get fuel (p + 1)

/-- The marker search over the read oracle, from position 0. -/
def findMarkerG (len : Nat) (get : Nat → Nat) : Option Nat :=
  findMarkerGAux len get len 0

/-- The locator over the read oracle: identical logic to `locate`, with the
payload assembled by reading the bytes at offsets
`m + markerLen + 1, ..., len - 1`, all within the document's bounds. -/
def locateG (len : Nat) (get : Nat → Nat) : Except LocateError (List Nat) :=
  match findMarkerG len get with
  | none => Except.error LocateError.markerNotFound
  | some m =>
    if len ≤ m + markerBytes.length + 1 then
      Except.error LocateError.noPayload
    else
      Except.ok ((List.range (len - (m + markerBytes.length + 1))).map
        (fun j => get (m + markerBytes.length + 1 + j)))

/-- The marker occurs at offset `m` of the document. -/
abbrev OccursAt (doc : List Nat) (m : Nat) : Prop :=
  markerBytes <+: doc.drop m

/-- `m` is the offset of the first occurrence of the marker. -/
abbrev FirstOccAt (doc : List Nat) (m : Nat) : Prop :=
  OccursAt doc m ∧ ∀ k, k < m → ¬ OccursAt doc k

theorem markerBytes_ne_nil : markerBytes ≠ [] := by decide

theorem markerBytes_length : markerBytes.length = 9 := rfl

theorem findMarker_some {doc : List Nat} {m : Nat}
    (h : findMarker doc = some m) : FirstOccAt doc m := by
  induction doc generalizing m with
  | nil => simp [findMarker] at h
  | cons a rest ih =>
    rw [findMarker] at h
    by_cases hp : markerBytes.isPrefixOf (a :: rest)
    · rw [if_pos hp] at h
      cases h
      refine ⟨?_, ?_⟩
      · simpa [OccursAt] using ( List.isPrefixOf_iff_prefix.mp hp)
      · intro k hk
        exact absurd hk (Nat.not_lt_zero k)
    · rw [if_neg hp] at h
      cases hr : findMarker rest with
      | none => simp [hr] at h
      | some n =>
        simp only [hr, Option.map_some'] at h
        cases h
        obtain ⟨h1, h2⟩ := ih hr
        refine ⟨?_, ?_⟩
        · simpa [OccursAt] using h1
        · intro k hk
          cases k with
          | zero =>
            intro hocc
            exact hp ( List.isPrefixOf_iff_prefix.mpr (by simpa [OccursAt] using hocc))
          | succ j =>
            intro hocc
            exact h2 j (by omega) (by simpa [OccursAt] using hocc)

theorem findMarker_of_firstOcc {doc : List Nat} {m : Nat}
    (h : FirstOccAt doc m) : findMarker doc = some m := by
  induction doc generalizing m with
  | nil =>
    exact absurd h.1 (by
      intro hocc
      have := hocc.length_le
      simp [markerBytes_length] at this)
  | cons a rest ih =>
    obtain ⟨h1, h2⟩ := h
    cases m with
    | zero =>
      have hp : markerBytes.isPrefixOf (a :: rest) :=
        List.isPrefixOf_iff_prefix.mpr (by simpa [OccursAt] using h1)
      rw [findMarker, if_pos hp]
    | succ n =>
      have hp : ¬ markerBytes.isPrefixOf (a :: rest) := by
        intro hp
        exact h2 0 (Nat.succ_pos n)
          (by simpa [OccursAt] using ( List.isPrefixOf_iff_prefix.mp hp))
      rw [findMarker, if_neg hp,
        ih ⟨by simpa [OccursAt] using h1,
          fun k hk => by
            have := h2 (k + 1) (by omega)
            simpa [OccursAt] using this⟩]
      rfl

theorem firstOcc_unique {doc : List Nat} {m m' : Nat}
    (h : FirstOccAt doc m) (h' : FirstOccAt doc m') : m = m' := by
  rcases Nat.lt_trichotomy m m' with hlt | heq | hgt
  · exact absurd h.1 (h'.2 m hlt)
  · exact heq
  · exact absurd h'.1 (h.2 m' hgt)

/-- C3: for every document in which the marker occurs, `locate` uses the
first occurrence, at byte offset `m`; on success it returns exactly the
bytes of the document from offset `m + len(marker) + 1` (skipping one
separator byte after the marker) through the end of the document. -/
theorem C3_locator_extraction (doc : List Nat) (m : Nat)
    (h : FirstOccAt doc m) (p : List Nat)
    (hok : locate doc = Except.ok p) :
    p = doc.drop (m + markerBytes.length + 1) := by
  have hm : findMarker doc = some m := findMarker_of_firstOcc h
  simp only [locate, hm] at hok
  by_cases hlen : doc.length ≤ m + markerBytes.length + 1
  · rw [if_pos hlen] at hok
    cases hok
  · rw [if_neg hlen] at hok
    cases hok
    rfl

theorem C3_locator_extraction_witness :
    ([1] : List Nat) = (markerBytes ++ [0, 1]).drop (0 + markerBytes.length + 1) :=
  C3_locator_extraction (markerBytes ++ [0, 1]) 0
    ⟨by decide, fun k hk => absurd hk (Nat.not_lt_zero k)⟩ [1] rfl

/-- C4: for every document containing the marker whose computed payload
start offset `m + len(marker) + 1` equals the document length exactly or
exceeds it, `locate` fails with `LocateError.noPayload`. -/
theorem C4_no_payload_boundary (doc : List Nat) (m : Nat)
    (h : FirstOccAt doc m)
    (hlen : doc.length ≤ m + markerBytes.length + 1) :
    locate doc = Except.error LocateError.noPayload := by
  simp only [locate, findMarker_of_firstOcc h]
  rw [if_pos hlen]

theorem C4_no_payload_boundary_witness :
    locate (markerBytes ++ [0]) = Except.error LocateError.noPayload :=
  C4_no_payload_boundary (markerBytes ++ [0]) 0
    ⟨by decide, fun k hk => absurd hk (Nat.not_lt_zero k)⟩ (by decide)

/-- C5: for every document (of any length, including zero) in which the
marker byte sequence occurs nowhere, `locate` fails with
`LocateError.markerNotFound`. -/
theorem C5_marker_absence (doc : List Nat)
    (h : ∀ k, ¬ OccursAt doc k) :
    locate doc = Except.error LocateError.markerNotFound := by
  unfold locate
  cases hf : findMarker doc with
  | none => rfl
  | some m => exact absurd (findMarker_some hf).1 (h m)

theorem C5_marker_absence_witness :
    locate [1, 2, 3] = Except.error LocateError.markerNotFound :=
  C5_marker_absence [1, 2, 3] (fun k hocc => by
    have hle := hocc.length_le
    have hd : (List.drop k [1, 2, 3]).length = 3 - k := by
      simp [List.length_drop]
    rw [markerBytes_length, hd] at hle
    omega)

/-- C10 (implicit): for every document containing the marker at first
offset `m` with at least two bytes following the marker, `locate` succeeds
and skips the single byte after the marker without checking its value: the
byte after the marker need not be `0x00`, and the returned payload is the
same whatever that byte's value is. -/
theorem C10_separator_not_validated (pre post : List Nat) (b : Nat)
    (hpost : post ≠ [])
    (h : FirstOccAt (pre ++ markerBytes ++ b :: post) pre.length) :
    locate (pre ++ markerBytes ++ b :: post) = Except.ok post := by
  have hm := findMarker_of_firstOcc h
  simp only [locate, hm]
  have hlen : (pre ++ markerBytes ++ b :: post).length
      = pre.length + markerBytes.length + 1 + post.length := by
    simp [List.length_append]
    omega
  have hpos : 0 < post.length := List.length_pos.mpr hpost
  have hgt : ¬ (pre ++ markerBytes ++ b :: post).length
      ≤ pre.length + markerBytes.length + 1 := by
    rw [hlen]; omega
  rw [if_neg hgt]
  have hsplit : pre ++ markerBytes ++ b :: post
      = (pre ++ markerBytes ++ [b]) ++ post := by
    simp
  rw [hsplit, List.drop_left' (by simp [List.length_append]; omega)]

theorem C10_separator_not_validated_witness :
    locate ([] ++ markerBytes ++ 7 :: [2]) = Except.ok [2] :=
  C10_separator_not_validated [] [2] 7 (by decide)
    ⟨by decide, fun k hk => absurd hk (Nat.not_lt_zero k)⟩

theorem marker_no_border :
    ∀ j, j < 9 → 1 ≤ j → markerBytes.drop j ≠ markerBytes.take (9 - j) := by
  decide

theorem firstOcc_append_of_markerFree (pre rest : List Nat)
    (hpre : ∀ k, ¬ OccursAt pre k) :
    FirstOccAt (pre ++ markerBytes ++ rest) pre.length := by
  have hassoc : pre ++ markerBytes ++ rest = pre ++ (markerBytes ++ rest) := by
    simp
  constructor
  · show markerBytes <+: (pre ++ markerBytes ++ rest).drop pre.length
    rw [hassoc, List.drop_left]
    exact List.prefix_append markerBytes rest
  · intro k hk hocc
    rw [hassoc] at hocc
    have hdrop : (pre ++ (markerBytes ++ rest)).drop k
        = pre.drop k ++ (markerBytes ++ rest) := by
      rw [List.drop_append_eq_append_drop, Nat.sub_eq_zero_of_le (le_of_lt hk),
        List.drop_zero]
    rw [OccursAt, hdrop] at hocc
    by_cases hcase : k + 9 ≤ pre.length
    · have hlen9 : markerBytes.length ≤ (pre.drop k).length := by
        rw [markerBytes_length, List.length_drop]; omega
      exact hpre k
        (List.prefix_of_prefix_length_le hocc
          (List.prefix_append (pre.drop k) (markerBytes ++ rest)) hlen9)
    · have hlenA : (pre.drop k).length = pre.length - k := List.length_drop k pre
      have hj1 : 1 ≤ pre.length - k := by omega
      have hj8 : pre.length - k ≤ 8 := by omega
      have heq : markerBytes = (pre.drop k ++ (markerBytes ++ rest)).take 9 := by
        have h := List.prefix_iff_eq_take.mp hocc
        rwa [markerBytes_length] at h
      have htake : (pre.drop k ++ (markerBytes ++ rest)).take 9
          = pre.drop k ++ markerBytes.take (9 - (pre.length - k)) := by
        rw [List.take_append_eq_append_take,
          List.take_of_length_le (by rw [hlenA]; omega), hlenA,
          List.take_append_eq_append_take]
        have h0 : 9 - (pre.length - k) - markerBytes.length = 0 := by
          rw [markerBytes_length]; omega
        rw [h0, List.take_zero, List.append_nil]
      have hborder : markerBytes.drop (pre.length - k)
          = markerBytes.take (9 - (pre.length - k)) := by
        have h2 : markerBytes.drop (pre.length - k)
            = (pre.drop k ++ markerBytes.take (9 - (pre.length - k))).drop
                (pre.length - k) := by
          rw [← htake, ← heq]
        rwa [List.drop_left' hlenA] at h2
      exact marker_no_border (pre.length - k) (by omega) hj1 hborder

theorem land_clear2 (x : Nat) (hx : x < 4294967296) :
    x &&& 4294967292 = x / 4 * 4 := by
  have hx4 : x / 4 * 4 = (x >>> 2) <<< 2 := by
    rw [Nat.shiftRight_eq_div_pow, Nat.shiftLeft_eq]
  rw [hx4]
  apply Nat.eq_of_testBit_eq
  intro i
  rw [Nat.testBit_and, Nat.testBit_shiftLeft, Nat.testBit_shiftRight]
  by_cases h2 : 2 ≤ i
  · have hge : (decide (i ≥ 2)) = true := by simp [h2]
    have hidx : 2 + (i - 2) = i := by omega
    rw [hge, Bool.true_and, hidx]
    by_cases h32 : i < 32
    · have hm : Nat.testBit 4294967292 i = true := by
        interval_cases i <;> decide
      rw [hm, Bool.and_true]
    · have hxi : Nat.testBit x i = false := by
        apply Nat.testBit_lt_two_pow
        calc x < 4294967296 := hx
          _ = 2 ^ 32 := by norm_num
          _ ≤ 2 ^ i := Nat.pow_le_pow_right (by norm_num) (by omega)
      rw [hxi, Bool.false_and]
  · have hm : Nat.testBit 4294967292 i = false := by
      interval_cases i <;> decide
    have hge : (decide (i ≥ 2)) = false := by
      simp only [ge_iff_le, decide_eq_false_iff_not]
      omega
    rw [hm, Bool.and_false, hge, Bool.false_and]

theorem stride_lt (w : Nat) : strideOf w < UINT_MOD := by
  have hmod : (w * 3 + 3) % UINT_MOD < UINT_MOD :=
    Nat.mod_lt _ (by norm_num [UINT_MOD])
  calc strideOf w = ((w * 3 + 3) % UINT_MOD) / 4 * 4 := land_clear2 _ hmod
    _ ≤ (w * 3 + 3) % UINT_MOD := Nat.div_mul_le_self _ _
    _ < UINT_MOD := hmod

theorem stride_eq (w : Nat) (hw : w < UINT_MOD) (hs : w * 3 ≤ strideOf w) :
    w * 3 + 3 < UINT_MOD ∧ strideOf w = (w * 3 + 3) / 4 * 4 := by
  have hmod : (w * 3 + 3) % UINT_MOD < UINT_MOD :=
    Nat.mod_lt _ (by norm_num [UINT_MOD])
  have hval : strideOf w = ((w * 3 + 3) % UINT_MOD) / 4 * 4 := land_clear2 _ hmod
  by_cases hov : w * 3 + 3 < UINT_MOD
  · rw [Nat.mod_eq_of_lt hov] at hval
    exact ⟨hov, hval⟩
  · exfalso
    push_neg at hov
    have h1 : (w * 3 + 3) % UINT_MOD ≤ w * 3 + 3 - UINT_MOD := by
      rw [Nat.mod_eq_sub_mod hov]
      exact Nat.mod_le _ _
    have h2 : strideOf w ≤ (w * 3 + 3) % UINT_MOD := by
      rw [hval]
      exact Nat.div_mul_le_self _ _
    have hM : UINT_MOD = 4294967296 := rfl
    omega

theorem bufLen_eq (w h : Nat)
    (hreq : requiredBytes w h (strideOf w) ≤ bufLenOf w h) :
    bufLenOf w h = h * strideOf w := by
  by_cases hh0 : h = 0
  · subst hh0
    simp [bufLenOf]
  · by_cases hov : h * strideOf w < UINT_MOD
    · unfold bufLenOf
      exact Nat.mod_eq_of_lt hov
    · exfalso
      push_neg at hov
      have h1 : bufLenOf w h ≤ h * strideOf w - UINT_MOD := by
        unfold bufLenOf
        rw [Nat.mod_eq_sub_mod hov]
        exact Nat.mod_le _ _
      have h2 : requiredBytes w h (strideOf w)
          = (h - 1) * strideOf w + w * 3 := by
        simp [requiredBytes, hh0]
      have h3 : (h - 1) * strideOf w + strideOf w = h * strideOf w := by
        cases h with
        | zero => exact absurd rfl hh0
        | succ n => simp [Nat.succ_sub_one, Nat.succ_mul]
      have h4 := stride_lt w
      omega

theorem decode_ok_length {codec : List Nat → Option WicFrame}
    {payload : List Nat} {fr : WicFrame} {img : DecodedImage}
    (hwf : fr.Wf) (hfr : codec payload = some fr)
    (hdec : decode codec payload = Except.ok img) :
    img.data.length = img.height * ((img.width * 3 + 3) / 4 * 4)
      ∧ img.width = fr.width ∧ img.height = fr.height := by
  simp only [decode, hfr] at hdec
  cases hcp : fr.copyPixels (strideOf fr.width) (bufLenOf fr.width fr.height) with
  | none => rw [hcp] at hdec; cases hdec
  | some out =>
    rw [hcp] at hdec
    cases hdec
    obtain ⟨hw, hh, hcontract⟩ := hwf
    obtain ⟨hs, hreq, hlen⟩ := hcontract _ _ _ hcp
    obtain ⟨hov, hsval⟩ := stride_eq fr.width hw hs
    refine ⟨?_, rfl, rfl⟩
    show out.length = fr.height * ((fr.width * 3 + 3) / 4 * 4)
    rw [hlen, bufLen_eq fr.width fr.height hreq, hsval]

/-- C1: for every document built as a text prefix not containing the marker,
followed by the marker bytes, one separator byte `0x00` and a valid image
payload (modelled by a codec that parses it into a well-formed frame whose
reported dimensions are the payload's header-declared dimensions and whose
pixel copy succeeds), `locate` then `decode` succeeds and returns a
`DecodedImage` whose width and height equal those declared dimensions, with
`data` of length `bufLenOf width height` (for sane dimensions,
`height * stride`). -/
theorem C1_round_trip (pre jpeg out : List Nat)
    (codec : List Nat → Option WicFrame) (fr : WicFrame)
    (hpre : ∀ k, ¬ OccursAt pre k)
    (hjpeg : jpeg ≠ [])
    (hwf : fr.Wf)
    (hcodec : codec jpeg = some fr)
    (hcopy : fr.copyPixels (strideOf fr.width) (bufLenOf fr.width fr.height)
      = some out) :
    pipeline codec (pre ++ markerBytes ++ 0 :: jpeg)
      = Except.ok (DecodedImage.mk out fr.width fr.height)
    ∧ out.length = bufLenOf fr.width fr.height := by
  have hfirst := firstOcc_append_of_markerFree pre (0 :: jpeg) hpre
  have hm := findMarker_of_firstOcc hfirst
  have hloc : locate (pre ++ markerBytes ++ 0 :: jpeg) = Except.ok jpeg := by
    simp only [locate, hm]
    have hlen : (pre ++ markerBytes ++ 0 :: jpeg).length
        = pre.length + markerBytes.length + 1 + jpeg.length := by
      simp [List.length_append]
      omega
    have hpos : 0 < jpeg.length := List.length_pos.mpr hjpeg
    rw [if_neg (by rw [hlen]; omega)]
    have hsplit : pre ++ markerBytes ++ 0 :: jpeg
        = (pre ++ markerBytes ++ [0]) ++ jpeg := by
      simp
    rw [hsplit, List.drop_left' (by simp [List.length_append]; omega)]
  have hdec : decode codec jpeg
      = Except.ok (DecodedImage.mk out fr.width fr.height) := by
    simp only [decode, hcodec, hcopy]
  refine ⟨?_, (hwf.2.2 _ _ _ hcopy).2.2⟩
  simp only [pipeline, hloc, hdec]

theorem c1frame_wf : c1frame.Wf := by
  refine ⟨by norm_num [c1frame, UINT_MOD], by norm_num [c1frame, UINT_MOD], ?_⟩
  intro stride bufSize out h
  have h' : c1copy stride bufSize = some out := h
  rw [c1copy] at h'
  split at h'
  next hcond =>
    cases h'
    exact ⟨hcond.1, hcond.2, by simp⟩
  next => cases h'

theorem C1_round_trip_witness :
    pipeline c1codec ([] ++ markerBytes ++ 0 :: [255, 216])
      = Except.ok (DecodedImage.mk (List.replicate 60000 0) 200 100)
    ∧ (List.replicate 60000 0).length = 100 * 600 :=
  C1_round_trip [] [255, 216] (List.replicate 60000 0) c1codec c1frame
    (fun k hocc => by
      have hle := hocc.length_le
      rw [markerBytes_length] at hle
      simp at hle)
    (by decide) c1frame_wf rfl rfl

/-- C2: the claim asserts that pathological reported dimensions (zero, or
large enough that `width * 3` overflows) make `decode` fail with
`DecodeError.invalidDimensions` before allocating or copying.  The code has
no such check: at a frame reporting width 2863311531 (whose
`width * 3 + 3` wraps to 4 in 32-bit arithmetic) the decoder proceeds and
succeeds with a 4-byte buffer, and no input at all can produce
`invalidDimensions` (or `emptyPayload`): every decode is a success, an
unsupported-format failure, or a pixel-copy failure. -/
theorem C2_no_dimension_validation :
    decode c2codec [1]
      = Except.ok (DecodedImage.mk (List.replicate 4 0) 2863311531 1)
    ∧ ∀ (codec : List Nat → Option WicFrame) (payload : List Nat),
        (∃ img, decode codec payload = Except.ok img)
        ∨ decode codec payload
            = Except.error DecodeError.unsupportedOrCorruptFormat
        ∨ decode codec payload = Except.error DecodeError.decodeFailed := by
  refine ⟨rfl, ?_⟩
  intro codec payload
  cases h1 : codec payload with
  | none =>
    right; left
    simp only [decode, h1]
  | some fr =>
    cases h2 : fr.copyPixels (strideOf fr.width) (bufLenOf fr.width fr.height) with
    | none =>
      right; right
      simp only [decode, h1, h2]
    | some out =>
      left
      exact ⟨DecodedImage.mk out fr.width fr.height, by simp only [decode, h1, h2]⟩

/-- C6: for every successful decode, the returned pixel buffer length
equals `height * stride` exactly, where the row stride is
`(width * 3 + 3) & ~3`, i.e. `(width * 3 + 3) / 4 * 4` (padding the
`width * 3` row bytes up to a 4-byte boundary); the frame is assumed to
come from a codec honouring the documented `CopyPixels` buffer
validation. -/
theorem C6_stride_and_buffer (codec : List Nat → Option WicFrame)
    (payload : List Nat) (fr : WicFrame) (img : DecodedImage)
    (hwf : fr.Wf) (hfr : codec payload = some fr)
    (hdec : decode codec payload = Except.ok img) :
    img.data.length = img.height * ((img.width * 3 + 3) / 4 * 4) :=
  (decode_ok_length hwf hfr hdec).1

theorem c6frame_wf : c6frame.Wf := by
  refine ⟨by norm_num [c6frame, UINT_MOD], by norm_num [c6frame, UINT_MOD], ?_⟩
  intro stride bufSize out h
  have h' : c6copy stride bufSize = some out := h
  rw [c6copy] at h'
  split at h'
  next hcond =>
    cases h'
    exact ⟨hcond.1, hcond.2, by simp⟩
  next => cases h'

theorem C6_stride_and_buffer_witness :
    (List.replicate 608 7).length = 2 * ((101 * 3 + 3) / 4 * 4) :=
  C6_stride_and_buffer c6codec [255, 216] c6frame
    (DecodedImage.mk (List.replicate 608 7) 101 2) c6frame_wf rfl rfl

/-- C8: the pipeline's result is identical for every pair of requested
sizes: the `cx` parameter of `GetThumbnail` is never read, so the core
neither scales nor otherwise depends on it. -/
theorem C8_requested_size_ignored (codec : List Nat → Option WicFrame)
    (cx cx' : Nat) (doc : List Nat) :
    getThumbnail codec cx doc = getThumbnail codec cx' doc := rfl

/-- C9: running locate-then-decode twice on identical input bytes yields
byte-identical `DecodedImage` output both times: the pipeline is a pure
function of its input with no hidden state between calls. -/
theorem C9_determinism (codec : List Nat → Option WicFrame) (doc : List Nat)
    (img1 img2 : DecodedImage)
    (h1 : pipeline codec doc = Except.ok img1)
    (h2 : pipeline codec doc = Except.ok img2) :
    img1.data = img2.data ∧ img1.width = img2.width
      ∧ img1.height = img2.height := by
  rw [h1] at h2
  cases h2
  exact ⟨rfl, rfl, rfl⟩

theorem getD_drop (doc : List Nat) (p j : Nat) :
    (doc.drop p).getD j 0 = doc.getD (p + j) 0 := by
  simp [List.getD_eq_getElem?_getD, List.getElem?_drop]

theorem isPrefix_iff_getD (pat : List Nat) : ∀ l : List Nat,
    pat <+: l ↔ pat.length ≤ l.length
      ∧ ∀ j, j < pat.length → pat.getD j 0 = l.getD j 0 := by
  induction pat with
  | nil =>
    intro l
    simp
  | cons b bs ih =>
    intro l
    cases l with
    | nil =>
      simp
    | cons c cs =>
      rw [List.cons_prefix_cons, ih cs]
      constructor
      · rintro ⟨hbc, hlen, hj⟩
        refine ⟨by simpa using hlen, ?_⟩
        intro j hj'
        cases j with
        | zero => simpa using hbc
        | succ i =>
          have h := hj i (by simpa using hj')
          simpa using h
      · rintro ⟨hlen, hj⟩
        refine ⟨by simpa using hj 0 (by simp), by simpa using hlen, ?_⟩
        intro i hi
        have h := hj (i + 1) (by simpa using hi)
        simpa using h

theorem gmatch_iff (len : Nat) (get : Nat → Nat) (p : Nat) :
    gmatch len get p = true ↔
      p + markerBytes.length ≤ len
        ∧ ∀ j, j < markerBytes.length → get (p + j) = markerBytes.getD j 0 := by
  simp [gmatch]

theorem gmatch_eq (doc : List Nat) (p : Nat) :
    gmatch doc.length (fun i => doc.getD i 0) p
      = markerBytes.isPrefixOf (doc.drop p) := by
  apply Bool.coe_iff_coe.mp
  rw [gmatch_iff, List.isPrefixOf_iff_prefix, isPrefix_iff_getD,
    markerBytes_length, List.length_drop]
  constructor
  · rintro ⟨h1, h2⟩
    refine ⟨by omega, ?_⟩
    intro j hj
    rw [getD_drop]
    exact (h2 j hj).symm
  · rintro ⟨h1, h2⟩
    refine ⟨by omega, ?_⟩
    intro j hj
    have h := h2 j hj
    rw [getD_drop] at h
    exact h.symm

theorem findMarkerGAux_none_of_ge (len : Nat) (get : Nat → Nat) :
    ∀ fuel p, len ≤ p → findMarkerGAux len get fuel p = none := by
  intro fuel
  induction fuel with
  | zero => intro p _; rfl
  | succ f ih =>
    intro p hp
    have hcond : ¬ (p + markerBytes.length ≤ len) := by
      rw [markerBytes_length]; omega
    have hg : ¬ (gmatch len get p = true) := by
      simp [gmatch, hcond]
    unfold findMarkerGAux
    rw [if_neg hg]
    exact ih (p + 1) (by omega)

theorem findMarkerGAux_spec (doc : List Nat) :
    ∀ fuel p, doc.length ≤ p + fuel →
      findMarkerGAux doc.length (fun i => doc.getD i 0) fuel p
        = (findMarker (doc.drop p)).map (fun q => q + p) := by
  intro fuel
  induction fuel with
  | zero =>
    intro p hp
    have hnil : doc.drop p = [] := List.drop_eq_nil_iff.mpr (by omega)
    rw [hnil]
    rfl
  | succ f ih =>
    intro p hp
    unfold findMarkerGAux
    rw [gmatch_eq]
    cases hd : doc.drop p with
    | nil =>
      have hlp : doc.length ≤ p := List.drop_eq_nil_iff.mp hd
      rw [if_neg (by decide),
        findMarkerGAux_none_of_ge doc.length _ f (p + 1) (by omega)]
      rfl
    | cons a rest =>
      by_cases hpm : markerBytes.isPrefixOf (a :: rest)
      · rw [if_pos hpm]
        simp only [findMarker]
        rw [if_pos hpm]
        simp
      · rw [if_neg hpm]
        have hrest : doc.drop (p + 1) = rest := by
          rw [← List.tail_drop, hd]
          rfl
        rw [ih (p + 1) (by omega), hrest]
        simp only [findMarker]
        rw [if_neg hpm]
        cases findMarker rest with
        | none => rfl
        | some q =>
          simp only [Option.map_some']
          congr 1
          omega

theorem findMarkerG_eq (doc : List Nat) :
    findMarkerG doc.length (fun i => doc.getD i 0) = findMarker doc := by
  unfold findMarkerG
  rw [findMarkerGAux_spec doc doc.length 0 (by omega), List.drop_zero]
  cases findMarker doc with
  | none => rfl
  | some m => simp

theorem map_getD_range_eq_drop (doc : List Nat) (s : Nat) :
    (List.range (doc.length - s)).map (fun j => doc.getD (s + j) 0)
      = doc.drop s := by
  apply List.ext_getElem
  · simp
  · intro i h1 h2
    simp only [List.getElem_map, List.getElem_range, List.getElem_drop]
    have hi : s + i < doc.length := by
      have := h2
      rw [List.length_drop] at this
      omega
    rw [List.getD_eq_getElem?_getD, List.getElem?_eq_getElem hi, Option.getD_some]

theorem locateG_eq_locate (doc : List Nat) :
    locateG doc.length (fun i => doc.getD i 0) = locate doc := by
  cases hf : findMarker doc with
  | none =>
    simp only [locateG, locate, findMarkerG_eq, hf]
  | some m =>
    by_cases hlen : doc.length ≤ m + markerBytes.length + 1
    · simp only [locateG, locate, findMarkerG_eq, hf]
      rw [if_pos hlen, if_pos hlen]
    · simp only [locateG, locate, findMarkerG_eq, hf]
      rw [if_neg hlen, if_neg hlen, map_getD_range_eq_drop]

theorem all_congr_of_eq {l : List Nat} {f g : Nat → Bool}
    (h : ∀ x, x ∈ l → f x = g x) : l.all f = l.all g := by
  apply Bool.coe_iff_coe.mp
  rw [List.all_eq_true, List.all_eq_true]
  constructor
  · intro hf x hx
    rw [← h x hx]
    exact hf x hx
  · intro hg x hx
    rw [h x hx]
    exact hg x hx

theorem gmatch_congr (len : Nat) (get get' : Nat → Nat)
    (h : ∀ i, i < len → get i = get' i) (p : Nat) :
    gmatch len get p = gmatch len get' p := by
  unfold gmatch
  by_cases hb : p + markerBytes.length ≤ len
  · congr 1
    apply all_congr_of_eq
    intro j hj
    rw [List.mem_range, markerBytes_length] at hj
    rw [h (p + j) (by rw [markerBytes_length] at hb; omega)]
  · simp [hb]

theorem findMarkerGAux_congr (len : Nat) (get get' : Nat → Nat)
    (h : ∀ i, i < len → get i = get' i) :
    ∀ fuel p, findMarkerGAux len get fuel p = findMarkerGAux len get' fuel p := by
  intro fuel
  induction fuel with
  | zero => intro p; rfl
  | succ f ih =>
    intro p
    unfold findMarkerGAux
    rw [gmatch_congr len get get' h p]
    by_cases hg : gmatch len get' p = true
    · rw [if_pos hg, if_pos hg]
    · rw [if_neg hg, if_neg hg]
      exact ih (p + 1)

/-- C7: the locator's result depends only on the bytes at indices inside
`[0, len)`: over a byte-read oracle, any two documents agreeing on all
in-bounds indices produce identical results, so the locator semantically
never reads out of bounds; the oracle model coincides with `locate` on
real documents; and on every input `locate` is total with a typed result:
`markerNotFound`, `noPayload`, or a payload that is a suffix of the
document (hence within its bounds). -/
theorem C7_bounded_access :
    (∀ (len : Nat) (get get' : Nat → Nat), (∀ i, i < len → get i = get' i) →
        locateG len get = locateG len get')
    ∧ (∀ doc : List Nat, locateG doc.length (fun i => doc.getD i 0) = locate doc)
    ∧ (∀ doc : List Nat,
        locate doc = Except.error LocateError.markerNotFound
        ∨ locate doc = Except.error LocateError.noPayload
        ∨ ∃ p, locate doc = Except.ok p ∧ p <:+ doc) := by
  refine ⟨?_, locateG_eq_locate, ?_⟩
  · intro len get get' h
    have hfm : findMarkerG len get = findMarkerG len get' := by
      unfold findMarkerG
      exact findMarkerGAux_congr len get get' h len 0
    cases hf : findMarkerG len get' with
    | none => simp only [locateG, hfm, hf]
    | some m =>
      by_cases hlen : len ≤ m + markerBytes.length + 1
      · simp only [locateG, hfm, hf]
        rw [if_pos hlen, if_pos hlen]
      · simp only [locateG, hfm, hf]
        rw [if_neg hlen, if_neg hlen]
        congr 1
        apply List.map_congr_left
        intro j hj
        rw [List.mem_range] at hj
        exact h (m + markerBytes.length + 1 + j) (by omega)
  · intro doc
    cases hf : findMarker doc with
    | none =>
      left
      unfold locate
      rw [hf]
    | some m =>
      by_cases hlen : doc.length ≤ m + markerBytes.length + 1
      · right; left
        simp only [locate, hf]
        rw [if_pos hlen]
      · right; right
        refine ⟨doc.drop (m + markerBytes.length + 1), ?_, List.drop_suffix _ _⟩
        simp only [locate, hf]
        rw [if_neg hlen]

theorem C7_bounded_access_witness :
    locateG 3 (fun i => i) = locateG 3 (fun i => if i < 3 then i else 99) :=
  C7_bounded_access.1 3 (fun i => i) (fun i => if i < 3 then i else 99)
    (fun i hi => (if_pos hi).symm)

theorem C9_determinism_witness :
    (List.replicate 4 9 : List Nat) = List.replicate 4 9
      ∧ (1 : Nat) = 1 ∧ (1 : Nat) = 1 := by
  have h : pipeline c9codec (markerBytes ++ [0, 1])
      = Except.ok (DecodedImage.mk (List.replicate 4 9) 1 1) := rfl
  exact C9_determinism c9codec (markerBytes ++ [0, 1]) _ _ h h

end KisekiThumb
